import Mathlib

/-!
# Verification of the `ctxcache` package (`lvan100/golib`)

Shallow embedding of `src/ctxcache/ctxcache.go` (the declare/set/get
variant with `KeepAlive`).  Go's generic type parameter `T` of
`TypeKey[T]` / `TypeValue[T]` is modelled by a runtime type tag (`Ty`):
two Go types are distinct exactly when their tags are distinct, and the
Go type assertion `v.(TypeValue[T])` succeeds exactly when the stored
tag equals the key's tag.  The `context.Context` chain is modelled by
`Option Cache`: `some c` is a context carrying (a pointer to) cache
state `c`, `none` a context with no cache bound.  The Go code mutates
the cache through a pointer under a mutex; here each operation returns
the successor state explicitly, following the Go control flow return
point by return point.
-/

namespace Ctxcache

/-- Runtime type tag standing for the Go static type parameter `T`. -/
abbrev Ty := String

/-- Universal carrier for cached payload values. -/
abbrev Val := Nat

/-- `TypeKey[T]{Key: key}`: a strongly typed cache key, identified by the
string `key` together with the type parameter `T` (here the tag `ty`). -/
structure TypeKey where
  ty : Ty
  key : String
deriving DecidableEq, Repr

/-- `TypeValue[T]{IsSet, Value}`: the boxed entry stored in the cache map.
`ty` is the runtime tag of the Go dynamic type `TypeValue[T]`. -/
structure TypeValue where
  ty : Ty
  isSet : Bool
  value : Val
deriving DecidableEq, Repr

/-- The Go map `map[any]any` of `Cache.values`, as an association list
with at most one binding per key (all operations preserve that shape). -/
abbrev ValMap := List (TypeKey × TypeValue)

/-- Map lookup `v, ok := cache.values[k]`. -/
def ValMap.lookup (m : ValMap) (k : TypeKey) : Option TypeValue :=
  match m with
  | [] => none
  | (k', v) :: rest => if k' = k then some v else ValMap.lookup rest k

/-- Map assignment `cache.values[k] = v` (replace or add the binding). -/
def ValMap.insert (m : ValMap) (k : TypeKey) (v : TypeValue) : ValMap :=
  match m with
  | [] => [(k, v)]
  | (k', v') :: rest =>
      if k' = k then (k, v) :: rest else (k', v') :: ValMap.insert rest k v

/-- Set insertion `cache.keepAlive[k] = struct\x7b\x7d` on the keep-alive set. -/
def insertKey (s : List TypeKey) (k : TypeKey) : List TypeKey :=
  if k ∈ s then s else k :: s

/-- The `Cache` struct: `values`, `keepAlive` and the `cleared` flag
(the mutex disappears in this sequential model). -/
structure Cache where
  values : ValMap
  keepAlive : List TypeKey
  cleared : Bool
deriving DecidableEq, Repr

/-- The fresh cache allocated by `Init`:
`&Cache\x7bvalues: make(map[any]any), keepAlive: make(map[any]struct\x7b\x7d)\x7d`. -/
def Cache.empty : Cache := ⟨[], [], false⟩

/-- `(*Cache).Clear`: if already cleared, return unchanged; otherwise set
`cleared`, delete every value whose key is not in `keepAlive`, then empty
`keepAlive`. -/
def Cache.Clear (cache : Cache) : Cache :=
  if cache.cleared then cache
  else
    { values := cache.values.filter fun p => decide (p.1 ∈ cache.keepAlive)
      keepAlive := []
      cleared := true }

/-- A context, carrying a cache or not (`getCache`'s two outcomes). -/
abbrev Ctx := Option Cache

/-- The error kinds of the package (`ErrCacheNotInitialized`, ...). -/
inductive CacheError
  | cacheNotInitialized
  | cacheAlreadyCleared
  | keyNotDeclared
  | keyTypeMismatch
  | valueNotSet
  | valueAlreadySet
deriving DecidableEq, Repr

/-- `Init`: if a cache is bound, return the context and `cache.Clear`
unchanged; otherwise bind a fresh empty cache.  The returned cancel
function is the state transformer `Cache.Clear` acting on the one cache
the context carries. -/
def Init (ctx : Ctx) : Ctx × (Cache → Cache) :=
  match ctx with
  | some cache => (some cache, Cache.Clear)
  | none => (some Cache.empty, Cache.Clear)

/-- `KeepAlive[T](ctx, k)`: silently ignored without a cache or after
clearing; otherwise adds `k` to the keep-alive set. -/
def KeepAlive (ctx : Ctx) (k : TypeKey) : Ctx :=
  match ctx with
  | none => none
  | some cache =>
    if cache.cleared then some cache
    else some { cache with keepAlive := insertKey cache.keepAlive k }

/-- The loop body of `Declare`: for each key, if no entry exists, store
`TypeValue[T]\x7bIsSet: false\x7d` (zero value, tag of the key's type). -/
def declareKeys (m : ValMap) (keys : List TypeKey) : ValMap :=
  match keys with
  | [] => m
  | k :: rest =>
      declareKeys (if (m.lookup k).isSome then m else m.insert k ⟨k.ty, false, 0⟩) rest

/-- `Declare[T](ctx, keys...)`: no-op without a cache or after clearing;
otherwise registers each missing key with an unset entry. -/
def Declare (ctx : Ctx) (keys : List TypeKey) : Ctx :=
  match ctx with
  | none => none
  | some cache =>
    if cache.cleared then some cache
    else some { cache with values := declareKeys cache.values keys }

/-- `Get[T](ctx, k)`: the five guards of the Go function, in source
order, then the stored value. -/
def Get (ctx : Ctx) (k : TypeKey) : Except CacheError Val :=
  match ctx with
  | none => .error .cacheNotInitialized
  | some cache =>
    if cache.cleared then .error .cacheAlreadyCleared
    else
      match cache.values.lookup k with
      | none => .error .keyNotDeclared
      | some x =>
        if x.ty ≠ k.ty then .error .keyTypeMismatch
        else if !x.isSet then .error .valueNotSet
        else .ok x.value

/-- `Set[T](ctx, k, value)`: the guards of the Go function in source
order; on success stores `TypeValue[T]\x7bIsSet: true, Value: value\x7d`.
Returns the successor context together with the error, so each early
`return err` leaves the state exactly as it was. -/
def Set (ctx : Ctx) (k : TypeKey) (value : Val) : Ctx × Option CacheError :=
  match ctx with
  | none => (none, some .cacheNotInitialized)
  | some cache =>
    if cache.cleared then (some cache, some .cacheAlreadyCleared)
    else
      match cache.values.lookup k with
      | none => (some cache, some .keyNotDeclared)
      | some x =>
        if x.ty ≠ k.ty then (some cache, some .keyTypeMismatch)
        else if x.isSet then (some cache, some .valueAlreadySet)
        else (some { cache with values := cache.values.insert k ⟨k.ty, true, value⟩ }, none)

/-- One API call, for reasoning about operation sequences.  `get` reads
without writing, `clear` is an invocation of the teardown function. -/
inductive Op
  | declare (keys : List TypeKey)
  | set (k : TypeKey) (v : Val)
  | get (k : TypeKey)
  | keepAlive (k : TypeKey)
  | clear
deriving DecidableEq, Repr

/-- The state transition of one API call. -/
def step (ctx : Ctx) : Op → Ctx
  | .declare keys => Declare ctx keys
  | .set k v => (Set ctx k v).1
  | .get _ => ctx
  | .keepAlive k => KeepAlive ctx k
  | .clear => ctx.map Cache.Clear

/-- The context reached by running a sequence of API calls on a freshly
initialized cache. -/
def run (ops : List Op) : Ctx :=
  ops.foldl step (Init none).1

/-! ## Map lemmas -/

theorem ValMap.lookup_insert (m : ValMap) (k k' : TypeKey) (v : TypeValue) :
    (m.insert k v).lookup k' = if k = k' then some v else m.lookup k' := by
  induction m with
  | nil => simp [ValMap.insert, ValMap.lookup]
  | cons p rest ih =>
    obtain ⟨ka, va⟩ := p
    by_cases h : ka = k
    · subst h
      by_cases h' : ka = k' <;> simp [ValMap.insert, ValMap.lookup, h']
    · by_cases h' : ka = k'
      · subst h'
        have hne : ¬ k = ka := fun hk => h hk.symm
        simp [ValMap.insert, ValMap.lookup, h, hne]
      · simp [ValMap.insert, ValMap.lookup, h, h', ih]

theorem ValMap.lookup_filter_keep (m : ValMap) (s : List TypeKey) (k : TypeKey) :
    ValMap.lookup (List.filter (fun p => decide (p.1 ∈ s)) m) k =
      if k ∈ s then ValMap.lookup m k else none := by
  induction m with
  | nil => simp [ValMap.lookup]
  | cons p rest ih =>
    obtain ⟨ka, va⟩ := p
    by_cases hs : ka ∈ s
    · by_cases hk : ka = k
      · subst hk
        simp [List.filter, hs, ValMap.lookup]
      · simp [List.filter, hs, ValMap.lookup, hk, ih]
    · by_cases hk : ka = k
      · subst hk
        simp [List.filter, hs, ValMap.lookup, ih]
      · simp [List.filter, hs, ValMap.lookup, hk, ih]

/-! ## Lemmas about the `Declare` loop -/

theorem declareKeys_preserves (ks : List TypeKey) (m : ValMap) (k : TypeKey)
    (e : TypeValue) (h : m.lookup k = some e) :
    (declareKeys m ks).lookup k = some e := by
  induction ks generalizing m with
  | nil => simpa [declareKeys] using h
  | cons k' rest ih =>
    by_cases hk : (m.lookup k').isSome
    · simpa [declareKeys, hk] using ih m h
    · have hne : k' ≠ k := by
        intro hkk
        subst hkk
        simp [h] at hk
      have h' : ValMap.lookup (m.insert k' ⟨k'.ty, false, 0⟩) k = some e := by
        rw [ValMap.lookup_insert]
        simp [hne, h]
      simpa [declareKeys, hk] using ih _ h'

theorem declareKeys_not_mem (ks : List TypeKey) (m : ValMap) (k : TypeKey)
    (h : k ∉ ks) : (declareKeys m ks).lookup k = m.lookup k := by
  induction ks generalizing m with
  | nil => simp [declareKeys]
  | cons k' rest ih =>
    have hne : k' ≠ k := fun hkk => h (hkk ▸ List.mem_cons_self k' rest)
    have hrest : k ∉ rest := fun hr => h (List.mem_cons_of_mem _ hr)
    by_cases hk : (m.lookup k').isSome
    · simpa [declareKeys, hk] using ih m hrest
    · have := ih (m.insert k' ⟨k'.ty, false, 0⟩) hrest
      simpa [declareKeys, hk, ValMap.lookup_insert, hne] using this

theorem declareKeys_mem_none (ks : List TypeKey) (m : ValMap) (k : TypeKey)
    (hmem : k ∈ ks) (h : m.lookup k = none) :
    (declareKeys m ks).lookup k = some ⟨k.ty, false, 0⟩ := by
  induction ks generalizing m with
  | nil => cases hmem
  | cons k' rest ih =>
    by_cases hkk : k' = k
    · subst hkk
      have hk : ¬ (m.lookup k').isSome := by simp [h]
      have hins : (m.insert k' ⟨k'.ty, false, 0⟩).lookup k' = some ⟨k'.ty, false, 0⟩ := by
        simp [ValMap.lookup_insert]
      simpa [declareKeys, hk] using
        declareKeys_preserves rest _ k' _ hins
    · have hrest : k ∈ rest := by
        rcases List.mem_cons.mp hmem with h1 | h1
        · exact absurd h1.symm hkk
        · exact h1
      by_cases hk : (m.lookup k').isSome
      · simpa [declareKeys, hk] using ih m hrest h
      · have h' : ValMap.lookup (m.insert k' ⟨k'.ty, false, 0⟩) k = none := by
          rw [ValMap.lookup_insert]
          simp [hkk, h]
        simpa [declareKeys, hk] using ih _ hrest h'

theorem declareKeys_isSome_of_mem (ks : List TypeKey) (m : ValMap) (k : TypeKey)
    (hmem : k ∈ ks) : ((declareKeys m ks).lookup k).isSome := by
  cases h : m.lookup k with
  | none => simp [declareKeys_mem_none ks m k hmem h]
  | some e => simp [declareKeys_preserves ks m k e h]

theorem declareKeys_all_present (ks : List TypeKey) (m : ValMap)
    (h : ∀ k ∈ ks, (m.lookup k).isSome) : declareKeys m ks = m := by
  induction ks with
  | nil => simp [declareKeys]
  | cons k' rest ih =>
    have hk : (m.lookup k').isSome := h k' (List.mem_cons_self k' rest)
    simpa [declareKeys, hk] using ih fun k hk' => h k (List.mem_cons_of_mem _ hk')

theorem declareKeys_idem (ks : List TypeKey) (m : ValMap) :
    declareKeys (declareKeys m ks) ks = declareKeys m ks :=
  declareKeys_all_present ks _ fun k hk => declareKeys_isSome_of_mem ks m k hk

/-! ## The type-tag consistency invariant -/

/-- Every entry's runtime tag agrees with its key's tag: the state of
affairs Go's type system enforces by construction. -/
def consistentMap (m : ValMap) : Prop :=
  ∀ k e, m.lookup k = some e → e.ty = k.ty

/-- A context whose cache (if any) is tag-consistent. -/
def ctxConsistent (ctx : Ctx) : Prop :=
  ∀ c, ctx = some c → consistentMap c.values

theorem consistentMap_nil : consistentMap [] := by
  intro k e h
  simp [ValMap.lookup] at h

theorem consistentMap_insert (m : ValMap) (k : TypeKey) (e : TypeValue)
    (hm : consistentMap m) (he : e.ty = k.ty) :
    consistentMap (m.insert k e) := by
  intro k' e' h
  rw [ValMap.lookup_insert] at h
  by_cases hk : k = k'
  · subst hk
    simp at h
    subst h
    exact he
  · exact hm k' e' (by simpa [hk] using h)

theorem consistentMap_declareKeys (ks : List TypeKey) (m : ValMap)
    (hm : consistentMap m) : consistentMap (declareKeys m ks) := by
  induction ks generalizing m with
  | nil => simpa [declareKeys] using hm
  | cons k' rest ih =>
    by_cases hk : (m.lookup k').isSome
    · simpa [declareKeys, hk] using ih m hm
    · simpa [declareKeys, hk] using
        ih _ (consistentMap_insert m k' ⟨k'.ty, false, 0⟩ hm rfl)

theorem consistentMap_filter_keep (m : ValMap) (s : List TypeKey)
    (hm : consistentMap m) :
    consistentMap (m.filter fun p => decide (p.1 ∈ s)) := by
  intro k e h
  rw [ValMap.lookup_filter_keep] at h
  by_cases hs : k ∈ s
  · exact hm k e (by simpa [hs] using h)
  · simp [hs] at h

theorem step_consistent (ctx : Ctx) (op : Op) (h : ctxConsistent ctx) :
    ctxConsistent (step ctx op) := by
  cases op with
  | declare keys =>
    intro c hc
    cases ctx with
    | none => simp [step, Declare] at hc
    | some c0 =>
      have h0 := h c0 rfl
      by_cases hcl : c0.cleared
      · simp [step, Declare, hcl] at hc
        subst hc
        exact h0
      · simp [step, Declare, hcl] at hc
        subst hc
        exact consistentMap_declareKeys keys c0.values h0
  | set k v =>
    intro c hc
    cases ctx with
    | none => simp [step, Set] at hc
    | some c0 =>
      have h0 := h c0 rfl
      by_cases hcl : c0.cleared
      · simp [step, Set, hcl] at hc
        subst hc
        exact h0
      · cases hl : c0.values.lookup k with
        | none =>
          simp [step, Set, hcl, hl] at hc
          subst hc
          exact h0
        | some x =>
          by_cases hty : x.ty = k.ty
          · by_cases hset : x.isSet
            · simp [step, Set, hcl, hl, hty, hset] at hc
              subst hc
              exact h0
            · simp [step, Set, hcl, hl, hty, hset] at hc
              subst hc
              exact consistentMap_insert _ k _ h0 rfl
          · simp [step, Set, hcl, hl, hty] at hc
            subst hc
            exact h0
  | get k =>
    intro c hc
    exact h c hc
  | keepAlive k =>
    intro c hc
    cases ctx with
    | none => simp [step, KeepAlive] at hc
    | some c0 =>
      have h0 := h c0 rfl
      by_cases hcl : c0.cleared
      · simp [step, KeepAlive, hcl] at hc
        subst hc
        exact h0
      · simp [step, KeepAlive, hcl] at hc
        subst hc
        exact h0
  | clear =>
    intro c hc
    cases ctx with
    | none => simp [step] at hc
    | some c0 =>
      have h0 := h c0 rfl
      simp [step] at hc
      by_cases hcl : c0.cleared
      · simp [Cache.Clear, hcl] at hc
        subst hc
        exact h0
      · simp [Cache.Clear, hcl] at hc
        subst hc
        exact consistentMap_filter_keep c0.values c0.keepAlive h0

theorem foldl_step_consistent (ops : List Op) (ctx : Ctx)
    (h : ctxConsistent ctx) : ctxConsistent (ops.foldl step ctx) := by
  induction ops generalizing ctx with
  | nil => simpa using h
  | cons op rest ih => exact ih _ (step_consistent ctx op h)

theorem run_consistent (ops : List Op) : ctxConsistent (run ops) := by
  refine foldl_step_consistent ops _ ?_
  intro c hc
  simp [Init] at hc
  subst hc
  exact consistentMap_nil

/-! ## Claim theorems -/

/-- C3: the first invocation of the teardown function sets `cleared`,
removes every entry whose key is not in `keepAlive`, and empties
`keepAlive`; a second invocation changes nothing (idempotent); and no
API operation ever takes `cleared` back from `true` to `false`. -/
theorem clear_teardown (c : Cache) :
    (c.cleared = false →
      (c.Clear).cleared = true ∧
      (∀ k, ValMap.lookup (c.Clear).values k =
        if k ∈ c.keepAlive then ValMap.lookup c.values k else none) ∧
      (c.Clear).keepAlive = []) ∧
    (c.cleared = true → c.Clear = c) ∧
    c.Clear.Clear = c.Clear ∧
    (∀ op c', c.cleared = true → step (some c) op = some c' → c'.cleared = true) := by
  refine ⟨?_, ?_, ?_, ?_⟩
  · intro h
    refine ⟨by simp [Cache.Clear, h], ?_, by simp [Cache.Clear, h]⟩
    intro k
    simp only [Cache.Clear, h, if_false, Bool.false_eq_true]
    exact ValMap.lookup_filter_keep c.values c.keepAlive k
  · intro h
    simp [Cache.Clear, h]
  · by_cases h : c.cleared <;> simp [Cache.Clear, h]
  · intro op c' h hstep
    cases op with
    | declare keys =>
      simp [step, Declare, h] at hstep
      exact hstep ▸ h
    | set k v =>
      simp [step, Set, h] at hstep
      exact hstep ▸ h
    | get k =>
      simp [step] at hstep
      exact hstep ▸ h
    | keepAlive k =>
      simp [step, KeepAlive, h] at hstep
      exact hstep ▸ h
    | clear =>
      simp [step, Cache.Clear, h] at hstep
      exact hstep ▸ h

/-- Witness for C3 at concrete caches, one not yet cleared and one
already cleared. -/
theorem clear_teardown_witness :
    (Cache.Clear ⟨[], [], false⟩).cleared = true ∧
    Cache.Clear ⟨[], [], true⟩ = ⟨[], [], true⟩ :=
  ⟨((clear_teardown ⟨[], [], false⟩).1 rfl).1,
   (clear_teardown ⟨[], [], true⟩).2.1 rfl⟩

/-- C2: for a key marked keep-alive, running the teardown preserves its
map entry unchanged, yet a `Get` on it after teardown still fails with
`ErrCacheAlreadyCleared`. -/
theorem keepalive_get_after_clear (c : Cache) (k : TypeKey)
    (hk : k ∈ c.keepAlive) :
    Get (some c.Clear) k = .error .cacheAlreadyCleared ∧
    ValMap.lookup (c.Clear).values k = ValMap.lookup c.values k := by
  by_cases h : c.cleared
  · constructor
    · simp [Cache.Clear, h, Get]
    · simp [Cache.Clear, h]
  · constructor
    · simp [Cache.Clear, h, Get]
    · simp only [Cache.Clear, h, if_false, Bool.false_eq_true]
      rw [ValMap.lookup_filter_keep]
      simp [hk]

/-- Witness for C2: a set entry under a kept-alive key survives the
purge but `Get` after teardown reports the cache cleared. -/
theorem keepalive_get_after_clear_witness :
    Get (some (Cache.Clear ⟨[(⟨"int", "a"⟩, ⟨"int", true, 5⟩)], [⟨"int", "a"⟩], false⟩))
        ⟨"int", "a"⟩ = .error .cacheAlreadyCleared ∧
    ValMap.lookup (Cache.Clear ⟨[(⟨"int", "a"⟩, ⟨"int", true, 5⟩)], [⟨"int", "a"⟩], false⟩).values
        ⟨"int", "a"⟩ =
      ValMap.lookup [(⟨"int", "a"⟩, ⟨"int", true, 5⟩)] ⟨"int", "a"⟩ :=
  keepalive_get_after_clear ⟨[(⟨"int", "a"⟩, ⟨"int", true, 5⟩)], [⟨"int", "a"⟩], false⟩
    ⟨"int", "a"⟩ (by simp)

/-- C5: `Init` on a context that already carries a cache returns the
identical context and the same teardown (the `Cache.Clear` transition of
that one cache, exactly what the first `Init` returned); only on a
cache-less context does it bind a fresh empty cache (no values, no
keep-alive marks, not cleared). -/
theorem init_idempotent (c : Cache) :
    Init (some c) = (some c, Cache.Clear) ∧
    (Init (some c)).2 = (Init none).2 ∧
    Init none = (some Cache.empty, Cache.Clear) ∧
    Cache.empty.values = [] ∧ Cache.empty.keepAlive = [] ∧
    Cache.empty.cleared = false :=
  ⟨rfl, rfl, rfl, rfl, rfl, rfl⟩

/-- C8: whenever `Set` returns an error, the resulting context carries
exactly the state it started with: a failed `Set` mutates nothing. -/
theorem set_failure_atomic (ctx : Ctx) (k : TypeKey) (v : Val) (e : CacheError)
    (h : (Set ctx k v).2 = some e) : (Set ctx k v).1 = ctx := by
  cases ctx with
  | none => rfl
  | some cache =>
    by_cases hcl : cache.cleared
    · simp [Set, hcl]
    · cases hl : ValMap.lookup cache.values k with
      | none => simp [Set, hcl, hl]
      | some x =>
        by_cases hty : x.ty = k.ty
        · by_cases hset : x.isSet
          · simp [Set, hcl, hl, hty, hset]
          · simp [Set, hcl, hl, hty, hset] at h
        · simp [Set, hcl, hl, hty]

/-- Witness for C8: `Set` on an unbound context fails and returns the
context unchanged. -/
theorem set_failure_atomic_witness :
    (Set none ⟨"int", "a"⟩ 5).2 = some .cacheNotInitialized ∧
    (Set none ⟨"int", "a"⟩ 5).1 = none :=
  ⟨rfl, set_failure_atomic none ⟨"int", "a"⟩ 5 .cacheNotInitialized rfl⟩

/-- C4: `Get` succeeds exactly when a cache is bound, not cleared, the
key has an entry, the entry's tag matches the key's, and the value is
set; each failing condition yields its dedicated error; and a `Get`
never changes the state, so it can be repeated at will. -/
theorem get_contract (c : Cache) (k : TypeKey) :
    Get none k = .error .cacheNotInitialized ∧
    (c.cleared = true → Get (some c) k = .error .cacheAlreadyCleared) ∧
    (c.cleared = false → ValMap.lookup c.values k = none →
      Get (some c) k = .error .keyNotDeclared) ∧
    (∀ e, c.cleared = false → ValMap.lookup c.values k = some e → e.ty ≠ k.ty →
      Get (some c) k = .error .keyTypeMismatch) ∧
    (∀ e, c.cleared = false → ValMap.lookup c.values k = some e → e.ty = k.ty →
      e.isSet = false → Get (some c) k = .error .valueNotSet) ∧
    (∀ e, c.cleared = false → ValMap.lookup c.values k = some e → e.ty = k.ty →
      e.isSet = true → Get (some c) k = .ok e.value) ∧
    ((∃ v, Get (some c) k = .ok v) ↔
      c.cleared = false ∧ ∃ e, ValMap.lookup c.values k = some e ∧
        e.ty = k.ty ∧ e.isSet = true) ∧
    step (some c) (.get k) = some c := by
  refine ⟨rfl, ?_, ?_, ?_, ?_, ?_, ?_, rfl⟩
  · intro h
    simp [Get, h]
  · intro h hl
    simp [Get, h, hl]
  · intro e h hl hty
    simp [Get, h, hl, hty]
  · intro e h hl hty hset
    simp [Get, h, hl, hty, hset]
  · intro e h hl hty hset
    simp [Get, h, hl, hty, hset]
  · constructor
    · rintro ⟨v, hv⟩
      cases h : c.cleared with
      | true => simp [Get, h] at hv
      | false =>
        cases hl : ValMap.lookup c.values k with
        | none => simp [Get, h, hl] at hv
        | some e =>
          by_cases hty : e.ty = k.ty
          · cases hset : e.isSet with
            | false => simp [Get, h, hl, hty, hset] at hv
            | true => exact ⟨rfl, e, rfl, hty, hset⟩
          · simp [Get, h, hl, hty] at hv
    · rintro ⟨h, e, hl, hty, hset⟩
      exact ⟨e.value, by simp [Get, h, hl, hty, hset]⟩

/-- Witness for C4: a successful `Get`, and `Get` on a cleared cache. -/
theorem get_contract_witness :
    Get (some ⟨[(⟨"int", "a"⟩, ⟨"int", true, 5⟩)], [], false⟩) ⟨"int", "a"⟩ = .ok 5 ∧
    Get (some ⟨[], [], true⟩) ⟨"int", "a"⟩ = .error .cacheAlreadyCleared :=
  ⟨(get_contract ⟨[(⟨"int", "a"⟩, ⟨"int", true, 5⟩)], [], false⟩
      ⟨"int", "a"⟩).2.2.2.2.2.1 ⟨"int", true, 5⟩ rfl (by decide) rfl rfl,
   (get_contract ⟨[], [], true⟩ ⟨"int", "a"⟩).2.1 rfl⟩

/-- C10: when several failure conditions hold at once, `Get` and `Set`
report the first one in source order: no cache, then cleared, then
undeclared, then tag mismatch, then value-not-set (`Get`) or
value-already-set (`Set`).  Each conjunct assumes only the conditions up
to its own guard, so it holds whatever the later conditions are. -/
theorem error_precedence (c : Cache) (k : TypeKey) (v : Val) :
    (Get none k = .error .cacheNotInitialized ∧
      (Set none k v).2 = some .cacheNotInitialized) ∧
    (c.cleared = true →
      Get (some c) k = .error .cacheAlreadyCleared ∧
      (Set (some c) k v).2 = some .cacheAlreadyCleared) ∧
    (c.cleared = false → ValMap.lookup c.values k = none →
      Get (some c) k = .error .keyNotDeclared ∧
      (Set (some c) k v).2 = some .keyNotDeclared) ∧
    (∀ e, c.cleared = false → ValMap.lookup c.values k = some e → e.ty ≠ k.ty →
      Get (some c) k = .error .keyTypeMismatch ∧
      (Set (some c) k v).2 = some .keyTypeMismatch) ∧
    (∀ e, c.cleared = false → ValMap.lookup c.values k = some e → e.ty = k.ty →
      e.isSet = false → Get (some c) k = .error .valueNotSet) ∧
    (∀ e, c.cleared = false → ValMap.lookup c.values k = some e → e.ty = k.ty →
      e.isSet = true → (Set (some c) k v).2 = some .valueAlreadySet) := by
  refine ⟨⟨rfl, rfl⟩, ?_, ?_, ?_, ?_, ?_⟩
  · intro h
    exact ⟨by simp [Get, h], by simp [Set, h]⟩
  · intro h hl
    exact ⟨by simp [Get, h, hl], by simp [Set, h, hl]⟩
  · intro e h hl hty
    exact ⟨by simp [Get, h, hl, hty], by simp [Set, h, hl, hty]⟩
  · intro e h hl hty hset
    simp [Get, h, hl, hty, hset]
  · intro e h hl hty hset
    simp [Set, h, hl, hty, hset]

/-- Witness for C10: on a cleared cache with an undeclared key, `Get`
reports `cacheAlreadyCleared`, not `keyNotDeclared`. -/
theorem error_precedence_witness :
    ValMap.lookup (⟨[], [], true⟩ : Cache).values ⟨"int", "a"⟩ = none ∧
    Get (some ⟨[], [], true⟩) ⟨"int", "a"⟩ = .error .cacheAlreadyCleared :=
  ⟨rfl, ((error_precedence ⟨[], [], true⟩ ⟨"int", "a"⟩ 0).2.1 rfl).1⟩

/-- C9: along every sequence of API calls from a fresh cache, every
entry's tag agrees with its key's tag, so the `keyTypeMismatch` branch
of `Get` and of `Set` is never taken. -/
theorem type_mismatch_unreachable (ops : List Op) (k : TypeKey) (v : Val) :
    Get (run ops) k ≠ .error .keyTypeMismatch ∧
    (Set (run ops) k v).2 ≠ some .keyTypeMismatch := by
  have hc := run_consistent ops
  cases hctx : run ops with
  | none => exact ⟨by simp [Get], by simp [Set]⟩
  | some c =>
    have hcons := hc c hctx
    cases h : c.cleared with
    | true => exact ⟨by simp [Get, h], by simp [Set, h]⟩
    | false =>
      cases hl : ValMap.lookup c.values k with
      | none => exact ⟨by simp [Get, h, hl], by simp [Set, h, hl]⟩
      | some x =>
        have hty : x.ty = k.ty := hcons k x hl
        cases hset : x.isSet with
        | false =>
          exact ⟨by simp [Get, h, hl, hty, hset], by simp [Set, h, hl, hty, hset]⟩
        | true =>
          exact ⟨by simp [Get, h, hl, hty, hset], by simp [Set, h, hl, hty, hset]⟩

/-- C7: `Declare` is a silent no-op without a cache or after clearing;
it never touches an existing entry (set or unset), registers each
missing listed key with an unset zero entry, changes nothing else, and
is idempotent. -/
theorem declare_semantics (c : Cache) (k : TypeKey) (ks : List TypeKey) :
    Declare none ks = none ∧
    (c.cleared = true → Declare (some c) ks = some c) ∧
    (∀ e c', ValMap.lookup c.values k = some e → Declare (some c) ks = some c' →
      ValMap.lookup c'.values k = some e) ∧
    (∀ c', c.cleared = false → ValMap.lookup c.values k = none → k ∈ ks →
      Declare (some c) ks = some c' →
      ValMap.lookup c'.values k = some ⟨k.ty, false, 0⟩) ∧
    (∀ c', Declare (some c) ks = some c' →
      c'.keepAlive = c.keepAlive ∧ c'.cleared = c.cleared) ∧
    Declare (Declare (some c) ks) ks = Declare (some c) ks := by
  refine ⟨rfl, ?_, ?_, ?_, ?_, ?_⟩
  · intro h
    simp [Declare, h]
  · intro e c' hl hd
    by_cases hcl : c.cleared
    · simp [Declare, hcl] at hd
      subst hd
      exact hl
    · simp [Declare, hcl] at hd
      subst hd
      exact declareKeys_preserves ks c.values k e hl
  · intro c' hcl hl hm hd
    simp [Declare, hcl] at hd
    subst hd
    exact declareKeys_mem_none ks c.values k hm hl
  · intro c' hd
    cases hb : c.cleared with
    | true =>
      simp [Declare, hb] at hd
      subst hd
      exact ⟨rfl, hb⟩
    | false =>
      simp [Declare, hb] at hd
      subst hd
      exact ⟨rfl, by simp [hb]⟩
  · by_cases hcl : c.cleared
    · simp [Declare, hcl]
    · simp [Declare, hcl, declareKeys_idem]

/-- Witness for C7: declaring a fresh key on an empty cache registers an
unset entry for it. -/
theorem declare_semantics_witness :
    ValMap.lookup (⟨[(⟨"int", "a"⟩, ⟨"int", false, 0⟩)], [], false⟩ : Cache).values
        ⟨"int", "a"⟩ = some ⟨"int", false, 0⟩ :=
  (declare_semantics Cache.empty ⟨"int", "a"⟩ [⟨"int", "a"⟩]).2.2.2.1
    ⟨[(⟨"int", "a"⟩, ⟨"int", false, 0⟩)], [], false⟩ rfl rfl (by simp) (by decide)

/-- C6: operations on one key neither change nor observe another key's
entry: `Declare` and `Set` on `k` leave the entry of any distinct `k'`
untouched (same name with a different type counts as distinct, since
`TypeKey` equality is name and tag together), and the outcome of `Get`
and `Set` on `k` is a function of the cleared flag and `k`'s own entry
alone. -/
theorem key_partition (c c₂ : Cache) (k k' : TypeKey) (v : Val)
    (hne : k ≠ k') :
    (∀ c', Declare (some c) [k] = some c' →
      ValMap.lookup c'.values k' = ValMap.lookup c.values k') ∧
    (∀ c', (Set (some c) k v).1 = some c' →
      ValMap.lookup c'.values k' = ValMap.lookup c.values k') ∧
    (c.cleared = c₂.cleared →
      ValMap.lookup c.values k = ValMap.lookup c₂.values k →
      Get (some c) k = Get (some c₂) k) ∧
    (c.cleared = c₂.cleared →
      ValMap.lookup c.values k = ValMap.lookup c₂.values k →
      (Set (some c) k v).2 = (Set (some c₂) k v).2) := by
  have hne' : ¬ k' = k := fun h => hne h.symm
  refine ⟨?_, ?_, ?_, ?_⟩
  · intro c' hd
    by_cases hcl : c.cleared
    · simp [Declare, hcl] at hd
      subst hd
      rfl
    · simp [Declare, hcl] at hd
      subst hd
      exact declareKeys_not_mem [k] c.values k' (by simp [hne'])
  · intro c' hs
    by_cases hcl : c.cleared
    · simp [Set, hcl] at hs
      subst hs
      rfl
    · cases hl : ValMap.lookup c.values k with
      | none =>
        simp [Set, hcl, hl] at hs
        subst hs
        rfl
      | some x =>
        by_cases hty : x.ty = k.ty
        · cases hset : x.isSet with
          | true =>
            simp [Set, hcl, hl, hty, hset] at hs
            subst hs
            rfl
          | false =>
            simp [Set, hcl, hl, hty, hset] at hs
            subst hs
            rw [ValMap.lookup_insert]
            simp [hne]
        · simp [Set, hcl, hl, hty] at hs
          subst hs
          rfl
  · intro hcl hl
    simp only [Get, hcl, hl]
  · intro hcl hl
    cases h2 : c₂.cleared with
    | true =>
      have h1 : c.cleared = true := hcl.trans h2
      simp [Set, h1, h2]
    | false =>
      have h1 : c.cleared = false := hcl.trans h2
      cases hl2 : ValMap.lookup c₂.values k with
      | none =>
        have hl1 : ValMap.lookup c.values k = none := hl.trans hl2
        simp [Set, h1, h2, hl1, hl2]
      | some x =>
        have hl1 : ValMap.lookup c.values k = some x := hl.trans hl2
        by_cases hty : x.ty = k.ty
        · cases hset : x.isSet with
          | true => simp [Set, h1, h2, hl1, hl2, hty, hset]
          | false => simp [Set, h1, h2, hl1, hl2, hty, hset]
        · simp [Set, h1, h2, hl1, hl2, hty]

/-- Witness for C6: two keys sharing the name `"k"` with distinct type
tags: setting the string-tagged one leaves the int-tagged entry intact. -/
theorem key_partition_witness :
    ValMap.lookup
      (⟨[(⟨"string", "k"⟩, ⟨"string", true, 2⟩),
         (⟨"int", "k"⟩, ⟨"int", true, 1⟩)], [], false⟩ : Cache).values ⟨"int", "k"⟩ =
      ValMap.lookup [(⟨"string", "k"⟩, ⟨"string", false, 0⟩),
                     (⟨"int", "k"⟩, ⟨"int", true, 1⟩)] ⟨"int", "k"⟩ :=
  (key_partition ⟨[(⟨"string", "k"⟩, ⟨"string", false, 0⟩),
                   (⟨"int", "k"⟩, ⟨"int", true, 1⟩)], [], false⟩
      ⟨[], [], false⟩ ⟨"string", "k"⟩ ⟨"int", "k"⟩ 2 (by decide)).2.1
    ⟨[(⟨"string", "k"⟩, ⟨"string", true, 2⟩),
      (⟨"int", "k"⟩, ⟨"int", true, 1⟩)], [], false⟩ (by decide)

/-! ## Preservation of set entries (for the write-once claim) -/

theorem step_some (c : Cache) (op : Op) : ∃ c', step (some c) op = some c' := by
  cases op with
  | declare keys =>
    by_cases h : c.cleared <;> simp [step, Declare, h]
  | set k v =>
    by_cases h : c.cleared
    · simp [step, Set, h]
    · cases hl : ValMap.lookup c.values k with
      | none => simp [step, Set, h, hl]
      | some x =>
        by_cases hty : x.ty = k.ty
        · cases hset : x.isSet with
          | true => simp [step, Set, h, hl, hty, hset]
          | false => simp [step, Set, h, hl, hty, hset]
        · simp [step, Set, h, hl, hty]
  | get k => exact ⟨c, rfl⟩
  | keepAlive k =>
    by_cases h : c.cleared <;> simp [step, KeepAlive, h]
  | clear => exact ⟨c.Clear, rfl⟩

theorem step_preserves_set_entry (op : Op) (c c' : Cache) (k : TypeKey)
    (e : TypeValue) (hop : op ≠ Op.clear) (hstep : step (some c) op = some c')
    (hl : ValMap.lookup c.values k = some e) (hset : e.isSet = true) :
    ValMap.lookup c'.values k = some e := by
  cases op with
  | declare keys =>
    by_cases h : c.cleared
    · simp [step, Declare, h] at hstep
      subst hstep
      exact hl
    · simp [step, Declare, h] at hstep
      subst hstep
      exact declareKeys_preserves keys c.values k e hl
  | set k2 v2 =>
    by_cases h : c.cleared
    · simp [step, Set, h] at hstep
      subst hstep
      exact hl
    · cases hl2 : ValMap.lookup c.values k2 with
      | none =>
        simp [step, Set, h, hl2] at hstep
        subst hstep
        exact hl
      | some x =>
        by_cases hty : x.ty = k2.ty
        · cases hset2 : x.isSet with
          | true =>
            simp [step, Set, h, hl2, hty, hset2] at hstep
            subst hstep
            exact hl
          | false =>
            have hne : k2 ≠ k := by
              intro hk
              subst hk
              rw [hl] at hl2
              cases hl2
              rw [hset] at hset2
              cases hset2
            simp [step, Set, h, hl2, hty, hset2] at hstep
            subst hstep
            rw [ValMap.lookup_insert]
            simp [hne, hl]
        · simp [step, Set, h, hl2, hty] at hstep
          subst hstep
          exact hl
  | get k2 =>
    simp [step] at hstep
    subst hstep
    exact hl
  | keepAlive k2 =>
    by_cases h : c.cleared
    · simp [step, KeepAlive, h] at hstep
      subst hstep
      exact hl
    · simp [step, KeepAlive, h] at hstep
      subst hstep
      exact hl
  | clear => exact absurd rfl hop

theorem foldl_no_clear_preserves (more : List Op) (c c' : Cache) (k : TypeKey)
    (e : TypeValue) (hset : e.isSet = true) (hmem : Op.clear ∉ more)
    (hl : ValMap.lookup c.values k = some e)
    (hfold : more.foldl step (some c) = some c') :
    ValMap.lookup c'.values k = some e := by
  induction more generalizing c with
  | nil =>
    simp at hfold
    subst hfold
    exact hl
  | cons op rest ih =>
    have hop : op ≠ Op.clear := fun h => hmem (h ▸ List.mem_cons_self op rest)
    have hrest : Op.clear ∉ rest := fun h => hmem (List.mem_cons_of_mem _ h)
    obtain ⟨c1, hc1⟩ := step_some c op
    have hl1 := step_preserves_set_entry op c c1 k e hop hc1 hl hset
    have hfold1 : rest.foldl step (some c1) = some c' := by
      simpa [List.foldl_cons, hc1] using hfold
    exact ih c1 hrest hl1 hfold1

/-- Counterexample to C1 as stated: declare, set and keep-alive a key,
then run the teardown.  The resulting cache state still holds the key's
entry with `IsSet = true`, yet `Set` on it returns
`ErrCacheAlreadyCleared`, not `ErrValueAlreadySet` (the `cleared` guard
fires first). -/
theorem set_write_once_counterexample :
    run [.declare [⟨"int", "a"⟩], .set ⟨"int", "a"⟩ 5, .keepAlive ⟨"int", "a"⟩,
         .clear] =
      some ⟨[(⟨"int", "a"⟩, ⟨"int", true, 5⟩)], [], true⟩ ∧
    ValMap.lookup [(⟨"int", "a"⟩, ⟨"int", true, 5⟩)] ⟨"int", "a"⟩ =
      some ⟨"int", true, 5⟩ ∧
    (Set (some ⟨[(⟨"int", "a"⟩, ⟨"int", true, 5⟩)], [], true⟩) ⟨"int", "a"⟩ 7).2 =
      some .cacheAlreadyCleared ∧
    some CacheError.cacheAlreadyCleared ≠ some CacheError.valueAlreadySet := by
  refine ⟨by decide, by decide, by decide, by decide⟩

/-- C1 (amended): in any API-reachable, *not yet cleared* cache state
whose entry for `k` has `IsSet = true`, `Set` fails with
`ErrValueAlreadySet` and changes nothing; and no sequence of
Declare/Set/Get/KeepAlive calls ever alters an entry once its value is
set. -/
theorem set_write_once (ops : List Op) (c : Cache) (k : TypeKey)
    (e : TypeValue) (v : Val) (hrun : run ops = some c)
    (hcl : c.cleared = false) (hl : ValMap.lookup c.values k = some e)
    (hset : e.isSet = true) :
    (Set (some c) k v).2 = some .valueAlreadySet ∧
    (Set (some c) k v).1 = some c ∧
    (∀ (more : List Op) (c' : Cache), Op.clear ∉ more →
      more.foldl step (some c) = some c' →
      ValMap.lookup c'.values k = some e) := by
  have hty : e.ty = k.ty := run_consistent ops c hrun k e hl
  refine ⟨by simp [Set, hcl, hl, hty, hset], by simp [Set, hcl, hl, hty, hset], ?_⟩
  intro more c' hmem hfold
  exact foldl_no_clear_preserves more c c' k e hset hmem hl hfold

/-- Witness for C1: the state reached by declaring then setting a key;
a second `Set` on it reports the value already set and leaves the state
as it was. -/
theorem set_write_once_witness :
    (Set (some ⟨[(⟨"int", "a"⟩, ⟨"int", true, 5⟩)], [], false⟩) ⟨"int", "a"⟩ 7).2 =
      some .valueAlreadySet ∧
    (Set (some ⟨[(⟨"int", "a"⟩, ⟨"int", true, 5⟩)], [], false⟩) ⟨"int", "a"⟩ 7).1 =
      some ⟨[(⟨"int", "a"⟩, ⟨"int", true, 5⟩)], [], false⟩ := by
  have h := set_write_once [.declare [⟨"int", "a"⟩], .set ⟨"int", "a"⟩ 5]
    ⟨[(⟨"int", "a"⟩, ⟨"int", true, 5⟩)], [], false⟩ ⟨"int", "a"⟩
    ⟨"int", true, 5⟩ 7 (by decide) rfl (by decide) rfl
  exact ⟨h.1, h.2.1⟩

end Ctxcache
